import Mathlib

/-!
Verification of the formatting and alignment engine of the `lsr` directory
listing utility (`src/path/paths.rs`), as a shallow embedding in Lean.

Modelling conventions:
* Rust `String` fields become Lean `String`; `str::len` becomes
  `String.length` (the listing only ever stores and pads ASCII-producing
  formatter output, where byte length and character count agree).
* `u64` sizes become `Nat` (all operations used are comparisons and
  truncating division, which agree with `u64` below `2 ^ 64`).
* `SystemTime` becomes an `Int` counting nanoseconds relative to the Unix
  epoch; `duration_since(UNIX_EPOCH)` succeeds exactly on nonnegative values.
* A Rust function that can panic is modelled with an explicit outcome type
  distinguishing a returned `Ok`, a returned `Err`, and a panic.
* Terminal colouring is presentation-only and is dropped: `print` is
  modelled as the list of emitted lines.
-/

namespace Lsr

/-- Embeds `struct Path` from `src/path/paths.rs`: one display-ready
directory entry. -/
structure Path where
  file_name : String
  is_dir : Bool
  size : String
  time : String
deriving DecidableEq

def KYLOBYTE : Nat := 1000

def MEGABYTE : Nat := 1000 * KYLOBYTE

def GIGABYTE : Nat := 1000 * MEGABYTE

def TERABYTE : Nat := 1000 * GIGABYTE

/-- Embeds `Path::size_string_formatter`. -/
def Path.size_string_formatter (size : Nat) : String :=
  if size == 0 then
    "-"
  else if size < KYLOBYTE then
    toString size ++ "B"
  else if size < MEGABYTE then
    toString (size / KYLOBYTE) ++ "KB"
  else if size < GIGABYTE then
    toString (size / MEGABYTE) ++ "MB"
  else if size < TERABYTE then
    toString (size / GIGABYTE) ++ "GB"
  else
    toString (size / TERABYTE) ++ "TB"

/-- A run of `n` executions of `path.file_name.push(' ')`: appends `n`
spaces. -/
def pushSpaces (s : String) (n : Nat) : String :=
  s ++ String.mk (List.replicate n ' ')

/-- Embeds Rust `s.starts_with(".")`: true exactly when the first character
is `'.'`. -/
def startsWithDot (s : String) : Bool :=
  match s.data with
  | [] => false
  | c :: _ => c == '.'

/-- Embeds `struct Paths`: the listing state (entries plus parsed flags). -/
structure Paths where
  paths : List Path
  long : Bool
  all : Bool
  tree : Bool × String
deriving DecidableEq

/-- One step of the fold inside `Paths::get_biggest_str_len`: update the
running maxima of `file_name` and `size` lengths with one entry. -/
def maxStep (acc : Nat × Nat) (p : Path) : Nat × Nat :=
  (if p.file_name.length > acc.1 then p.file_name.length else acc.1,
   if p.size.length > acc.2 then p.size.length else acc.2)

/-- Embeds `Paths::get_biggest_str_len`: the maxima over all entries of the
`file_name` length and the `size` length, starting from `(0, 0)`. -/
def Paths.get_biggest_str_len (paths : List Path) : Nat × Nat :=
  paths.foldl maxStep (0, 0)

/-- The per-entry body of the loop in `Paths::indentate_paths`: push
`biggest - len + 1` spaces onto `file_name` and onto `size`. -/
def indentateOne (biggest_name_len biggest_size_len : Nat) (p : Path) : Path :=
  { p with
    file_name := pushSpaces p.file_name (biggest_name_len - p.file_name.length + 1)
    size := pushSpaces p.size (biggest_size_len - p.size.length + 1) }

/-- Embeds `Paths::indentate_paths`: compute the biggest lengths and pad
every entry. -/
def Paths.indentate_paths (paths : List Path) : List Path :=
  paths.map (indentateOne (Paths.get_biggest_str_len paths).1
    (Paths.get_biggest_str_len paths).2)

/-- Embeds `Path::print` with colouring dropped: the emitted line
`"{file_name} {size} {time}"`. -/
def Path.printLine (p : Path) : String :=
  p.file_name ++ " " ++ p.size ++ " " ++ p.time

/-- Embeds `Paths::print` with output modelled as the list of emitted
lines: pad all entries, then emit one line per entry in stored order,
skipping entries whose (padded) `file_name` starts with `'.'` unless
`all` is set. -/
def Paths.print (s : Paths) : List String :=
  (Paths.indentate_paths s.paths).filter
    (fun p => !(!s.all && startsWithDot p.file_name)) |>.map Path.printLine

/-- Embeds `Paths::setup_args`. -/
def Paths.setup_args (s : Paths) (args : Bool × Bool × Option String) : Paths :=
  let (all, long, tree) := args
  let s1 : Paths := { s with all := all, long := long }
  match tree with
  | some t => { s1 with tree := (true, t) }
  | none => s1

/-- Outcome of a Rust function returning `Result<String, fmt::Error>` that
may also panic: `ok` models `Ok`, `fmtErr` models `Err(fmt::Error)`, and
`panicked msg` models a panic with the given message. -/
inductive SetTimeResult where
  | ok : String → SetTimeResult
  | fmtErr : SetTimeResult
  | panicked : String → SetTimeResult
deriving DecidableEq

/-- `duration.as_millis() as i64`: milliseconds since the epoch as a
`u128`, truncated to 64 bits and reinterpreted as a signed `i64`. -/
def castMillisToI64 (ns : Nat) : Int :=
  let ms : Nat := ns / 1000000
  let r : Nat := ms % 2 ^ 64
  if r < 2 ^ 63 then (r : Int) else (r : Int) - 2 ^ 64

/-- Model of the chrono civil-from-days conversion (proleptic Gregorian
calendar, UTC): maps days since 1970-01-01 to `(year, month, day)`. -/
def civilFromDays (z0 : Int) : Int × Nat × Nat :=
  let z := z0 + 719468
  let era := z / 146097
  let doe := (z % 146097).toNat
  let yoe := (doe - doe / 1460 + doe / 36524 - doe / 146096) / 365
  let y := (yoe : Int) + era * 400
  let doy := doe - (365 * yoe + yoe / 4 - yoe / 100)
  let mp := (5 * doy + 2) / 153
  let d := doy - (153 * mp + 2) / 5 + 1
  let m := if mp < 10 then mp + 3 else mp - 9
  (if m ≤ 2 then y + 1 else y, m, d)

/-- Model of the chrono days-from-civil conversion: days since 1970-01-01 of
a proleptic-Gregorian date. Used only to state the representable range. -/
def daysFromCivil (y : Int) (m d : Nat) : Int :=
  let y1 := if m ≤ 2 then y - 1 else y
  let era := y1 / 400
  let yoe := (y1 % 400).toNat
  let doy := (153 * (if 2 < m then m - 3 else m + 9) + 2) / 5 + d - 1
  let doe := yoe * 365 + yoe / 4 - yoe / 100 + doy
  era * 146097 + (doe : Int) - 719468

/-- the chrono minimum representable date, `-262144-01-01`, as days since the
epoch (`NaiveDate::MIN`, `MIN_YEAR = i32::MIN >> 13`). -/
def minDateDays : Int := daysFromCivil (-262144) 1 1

/-- the chrono maximum representable date, `262143-12-31`, as days since the
epoch (`NaiveDate::MAX`, `MAX_YEAR = i32::MAX >> 13`). -/
def maxDateDays : Int := daysFromCivil 262143 12 31

/-- Model of `NaiveDateTime::from_timestamp_millis(ms).is_some()`: the
timestamp is representable exactly when its civil day lies within the chrono
date range. -/
def fromTimestampMillisValid (ms : Int) : Bool :=
  minDateDays ≤ ms / 86400000 && ms / 86400000 ≤ maxDateDays

/-- chrono `%b`: abbreviated month name. -/
def monthAbbrev (m : Nat) : String :=
  match m with
  | 1 => "Jan" | 2 => "Feb" | 3 => "Mar" | 4 => "Apr"
  | 5 => "May" | 6 => "Jun" | 7 => "Jul" | 8 => "Aug"
  | 9 => "Sep" | 10 => "Oct" | 11 => "Nov" | 12 => "Dec"
  | _ => ""

/-- chrono `%e`: day of month, space-padded to width 2. -/
def fmtDaySpacePadded (d : Nat) : String :=
  if d < 10 then " " ++ toString d else toString d

/-- chrono `%H` / `%M`: a number zero-padded to width 2 (`%R` is
`"%H:%M"`). -/
def fmtTwoDigit (n : Nat) : String :=
  if n < 10 then "0" ++ toString n else toString n

/-- The UTC day of month of a millisecond timestamp. -/
def utcDay (ms : Int) : Nat := (civilFromDays (ms / 86400000)).2.2

/-- The UTC month (1–12) of a millisecond timestamp. -/
def utcMonth (ms : Int) : Nat := (civilFromDays (ms / 86400000)).2.1

/-- The UTC second-of-day (0–86399) of a millisecond timestamp. -/
def utcSecondsOfDay (ms : Int) : Nat := (ms % 86400000).toNat / 1000

/-- the chrono rendering of `time.format("%e %b %R")` for the UTC calendar
time of a millisecond timestamp:
`"<day> <abbreviated month> <hour24>:<minute>"`. -/
def formatNaive (ms : Int) : String :=
  fmtDaySpacePadded (utcDay ms) ++ " " ++ monthAbbrev (utcMonth ms) ++ " " ++
    fmtTwoDigit (utcSecondsOfDay ms / 3600) ++ ":" ++
    fmtTwoDigit (utcSecondsOfDay ms % 3600 / 60)

/-- Embeds `Path::set_time`, with `SystemTime` modelled as nanoseconds
since the epoch: `duration_since(UNIX_EPOCH)` fails (and the code panics
with `"Time must gone backwards!"`) on pre-epoch times;
`from_timestamp_millis` fails (and the code panics with
`"Could not get time from milliseconds"`) on out-of-range timestamps;
otherwise the formatted string is returned in `Ok`. The `Err` variant of
the return type is never produced. -/
def Path.set_time (sys_time_ns : Int) : SetTimeResult :=
  if 0 ≤ sys_time_ns then
    let ms := castMillisToI64 sys_time_ns.toNat
    if fromTimestampMillisValid ms then
      SetTimeResult.ok (formatNaive ms)
    else
      SetTimeResult.panicked "Could not get time from milliseconds"
  else
    SetTimeResult.panicked "Time must gone backwards!"

/-- Claim C1: for every `u64` size, the size formatter returns `"-"` for 0,
`"{size}B"` below 1000, `"{size/1000}KB"` below 10^6, `"{size/10^6}MB"`
below 10^9, `"{size/10^9}GB"` below 10^12, and `"{size/10^12}TB"`
otherwise, with truncating integer division throughout; in particular
`format_size 0 = "-"`, `format_size 1000 = "1KB"`, and
`format_size 293380504804052 = "293TB"`. -/
theorem size_string_formatter_piecewise (size : Nat) (hu : size < 2 ^ 64) :
    (size = 0 → Path.size_string_formatter size = "-") ∧
    (0 < size → size < 1000 →
      Path.size_string_formatter size = toString size ++ "B") ∧
    (1000 ≤ size → size < 1000000 →
      Path.size_string_formatter size = toString (size / 1000) ++ "KB") ∧
    (1000000 ≤ size → size < 1000000000 →
      Path.size_string_formatter size = toString (size / 1000000) ++ "MB") ∧
    (1000000000 ≤ size → size < 1000000000000 →
      Path.size_string_formatter size = toString (size / 1000000000) ++ "GB") ∧
    (1000000000000 ≤ size →
      Path.size_string_formatter size = toString (size / 1000000000000) ++ "TB") ∧
    Path.size_string_formatter 0 = "-" ∧
    Path.size_string_formatter 1000 = "1KB" ∧
    Path.size_string_formatter 293380504804052 = "293TB" := by
  refine ⟨?_, ?_, ?_, ?_, ?_, ?_, by decide, by decide, by decide⟩ <;>
    intros <;>
    simp only [Path.size_string_formatter, KYLOBYTE, MEGABYTE, GIGABYTE, TERABYTE,
      beq_iff_eq] <;>
    (repeat rw [if_neg (by omega)]) <;>
    first
      | rfl
      | (rw [if_pos (by omega)])

theorem size_string_formatter_piecewise_witness :
    Path.size_string_formatter 251000 = toString (251000 / 1000) ++ "KB" :=
  (size_string_formatter_piecewise 251000 (by norm_num)).2.2.1 (by norm_num) (by norm_num)

theorem pushSpaces_length (s : String) (n : Nat) :
    (pushSpaces s n).length = s.length + n := by
  rw [pushSpaces, String.length_append]
  congr 1
  exact List.length_replicate n ' '

theorem le_foldl_maxStep (ps : List Path) (acc : Nat × Nat) :
    acc.1 ≤ (ps.foldl maxStep acc).1 ∧ acc.2 ≤ (ps.foldl maxStep acc).2 := by
  induction ps generalizing acc with
  | nil => exact ⟨le_refl _, le_refl _⟩
  | cons q t ih =>
    have h := ih (maxStep acc q)
    rw [List.foldl_cons]
    constructor
    · refine le_trans ?_ h.1
      simp only [maxStep]
      split <;> omega
    · refine le_trans ?_ h.2
      simp only [maxStep]
      split <;> omega

theorem mem_le_foldl_maxStep (ps : List Path) (acc : Nat × Nat) (p : Path)
    (hp : p ∈ ps) :
    p.file_name.length ≤ (ps.foldl maxStep acc).1 ∧
    p.size.length ≤ (ps.foldl maxStep acc).2 := by
  induction ps generalizing acc with
  | nil => cases hp
  | cons q t ih =>
    rw [List.foldl_cons]
    rcases List.mem_cons.mp hp with h | h
    · subst h
      have h2 := le_foldl_maxStep t (maxStep acc p)
      constructor
      · refine le_trans ?_ h2.1
        simp only [maxStep]
        split <;> omega
      · refine le_trans ?_ h2.2
        simp only [maxStep]
        split <;> omega
    · exact ih (maxStep acc q) h

theorem length_le_get_biggest (ps : List Path) (p : Path) (hp : p ∈ ps) :
    p.file_name.length ≤ (Paths.get_biggest_str_len ps).1 ∧
    p.size.length ≤ (Paths.get_biggest_str_len ps).2 :=
  mem_le_foldl_maxStep ps (0, 0) p hp

theorem mem_indentate_lengths (ps : List Path) (p : Path)
    (hp : p ∈ Paths.indentate_paths ps) :
    p.file_name.length = (Paths.get_biggest_str_len ps).1 + 1 ∧
    p.size.length = (Paths.get_biggest_str_len ps).2 + 1 := by
  rcases List.mem_map.mp hp with ⟨r, hr, hrp⟩
  subst hrp
  have hb := length_le_get_biggest ps r hr
  constructor <;> simp only [indentateOne, pushSpaces_length] <;> omega

/-- Claim C2: after one padding pass over any descriptor list, every
`file_name` has length `max_name_len + 1` and every `size` has length
`max_size_len + 1`, the maxima being taken over the whole pre-padding
list; hence any two padded descriptors have `file_name` fields of equal
length and `size` fields of equal length. -/
theorem indentate_paths_lengths (ps : List Path) (p q : Path)
    (hp : p ∈ Paths.indentate_paths ps) (hq : q ∈ Paths.indentate_paths ps) :
    p.file_name.length = (Paths.get_biggest_str_len ps).1 + 1 ∧
    p.size.length = (Paths.get_biggest_str_len ps).2 + 1 ∧
    p.file_name.length = q.file_name.length ∧
    p.size.length = q.size.length := by
  have h1 := mem_indentate_lengths ps p hp
  have h2 := mem_indentate_lengths ps q hq
  exact ⟨h1.1, h1.2, by omega, by omega⟩

theorem indentate_paths_lengths_witness :
    (Path.mk "test      " false "1kb " "t").file_name.length =
      (Paths.get_biggest_str_len
        [Path.mk "test" false "1kb" "t", Path.mk "test_test" false "1kb" "t"]).1 + 1 ∧
    (Path.mk "test      " false "1kb " "t").size.length =
      (Paths.get_biggest_str_len
        [Path.mk "test" false "1kb" "t", Path.mk "test_test" false "1kb" "t"]).2 + 1 ∧
    (Path.mk "test      " false "1kb " "t").file_name.length =
      (Path.mk "test_test " false "1kb " "t").file_name.length ∧
    (Path.mk "test      " false "1kb " "t").size.length =
      (Path.mk "test_test " false "1kb " "t").size.length :=
  indentate_paths_lengths
    [Path.mk "test" false "1kb" "t", Path.mk "test_test" false "1kb" "t"]
    (Path.mk "test      " false "1kb " "t") (Path.mk "test_test " false "1kb " "t")
    (by decide) (by decide)

theorem foldl_maxStep_const (a b : Nat) (ps : List Path) (acc : Nat × Nat)
    (h : ∀ p ∈ ps, p.file_name.length = a ∧ p.size.length = b) :
    ps = [] ∨ ps.foldl maxStep acc = (max acc.1 a, max acc.2 b) := by
  induction ps generalizing acc with
  | nil => exact Or.inl rfl
  | cons q t ih =>
    right
    have hq := h q (List.mem_cons_self q t)
    have hstep : maxStep acc q = (max acc.1 a, max acc.2 b) := by
      simp only [maxStep, hq.1, hq.2, Prod.mk.injEq]
      constructor <;> (rw [Nat.max_def]; split <;> split <;> omega)
    rw [List.foldl_cons, hstep]
    rcases ih (max acc.1 a, max acc.2 b)
        (fun p hp => h p (List.mem_cons_of_mem q hp)) with h1 | h1
    · subst h1
      rfl
    · rw [h1]
      simp only [Prod.mk.injEq]
      constructor <;> omega

theorem get_biggest_const (a b : Nat) (ps : List Path) (hne : ps ≠ [])
    (h : ∀ p ∈ ps, p.file_name.length = a ∧ p.size.length = b) :
    Paths.get_biggest_str_len ps = (a, b) := by
  rcases foldl_maxStep_const a b ps (0, 0) h with h1 | h1
  · exact absurd h1 hne
  · rw [Paths.get_biggest_str_len, h1]
    simp

/-- Claim C7 (counterexample): on an already-padded singleton list, a second
invocation of the pad step is not a no-op: it changes the `file_name` and
`size` fields. -/
theorem indentate_paths_not_idempotent :
    Paths.indentate_paths (Paths.indentate_paths [Path.mk "a" false "-" "t"]) ≠
      Paths.indentate_paths [Path.mk "a" false "-" "t"] := by
  decide

/-- Claim C7 (amended): re-invoking the pad step on an already-padded
descriptor list is not a no-op; it appends exactly one further space to
every `file_name` and every `size` field (in the program itself this
cannot happen, because `print` consumes the list after the single pad
pass). -/
theorem indentate_paths_twice (ps : List Path) :
    Paths.indentate_paths (Paths.indentate_paths ps) =
      (Paths.indentate_paths ps).map
        (fun p => { p with file_name := pushSpaces p.file_name 1,
                           size := pushSpaces p.size 1 }) := by
  rcases Decidable.em (ps = []) with hne | hne
  · subst hne
    rfl
  · have hne2 : Paths.indentate_paths ps ≠ [] := by
      rw [Paths.indentate_paths]
      simpa using hne
    have hgb : Paths.get_biggest_str_len (Paths.indentate_paths ps) =
        ((Paths.get_biggest_str_len ps).1 + 1, (Paths.get_biggest_str_len ps).2 + 1) :=
      get_biggest_const _ _ _ hne2 (fun p hp => mem_indentate_lengths ps p hp)
    conv_lhs => rw [Paths.indentate_paths, hgb]
    refine List.map_congr_left ?_
    intro p hp
    have hl := mem_indentate_lengths ps p hp
    simp only [indentateOne, hl.1, hl.2, Nat.sub_self, Nat.zero_add]

theorem startsWithDot_pushSpaces (s : String) (n : Nat) :
    startsWithDot (pushSpaces s (n + 1)) = startsWithDot s := by
  obtain ⟨d⟩ := s
  cases d <;> rfl

theorem pushSpaces_data_ne_nil (s : String) (n : Nat) :
    (pushSpaces s (n + 1)).data ≠ [] := by
  intro hc
  have h := pushSpaces_length s (n + 1)
  rw [show (pushSpaces s (n + 1)).length = (pushSpaces s (n + 1)).data.length from rfl,
    hc] at h
  simp at h
  omega

theorem startsWithDot_printLine (p : Path) (h : p.file_name.data ≠ []) :
    startsWithDot (Path.printLine p) = startsWithDot p.file_name := by
  rcases p with ⟨⟨d⟩, dir, ⟨dsz⟩, ⟨dtm⟩⟩
  cases d with
  | nil => exact absurd rfl h
  | cons c t => rfl

theorem startsWithDot_indentateOne (bn bs : Nat) (p : Path) :
    startsWithDot (indentateOne bn bs p).file_name = startsWithDot p.file_name :=
  startsWithDot_pushSpaces _ _

theorem startsWithDot_printLine_indentateOne (bn bs : Nat) (p : Path) :
    startsWithDot (Path.printLine (indentateOne bn bs p)) =
      startsWithDot p.file_name := by
  rw [startsWithDot_printLine _ (pushSpaces_data_ne_nil _ _),
    startsWithDot_indentateOne]

theorem print_normal_form (s : Paths) :
    Paths.print s =
      (s.paths.filter (fun p => s.all || !startsWithDot p.file_name)).map
        (fun p => Path.printLine
          (indentateOne (Paths.get_biggest_str_len s.paths).1
            (Paths.get_biggest_str_len s.paths).2 p)) := by
  rw [Paths.print, Paths.indentate_paths, List.filter_map, List.map_map]
  refine congrArg _ (List.filter_congr ?_)
  intro p hp
  simp only [Function.comp]
  rw [startsWithDot_indentateOne]
  cases s.all <;> cases startsWithDot p.file_name <;> rfl

/-- Claim C3: rendering emits exactly one line `"{name} {size} {time}"` per
retained descriptor, in stored order; a descriptor is retained exactly when
`all` is set or its unpadded `file_name` does not begin with `'.'` (padding
never changes the leading character, so the post-padding test in the code
coincides with the test on the original name). -/
theorem print_emits_retained_lines (s : Paths) :
    Paths.print s =
      (s.paths.filter (fun p => s.all || !startsWithDot p.file_name)).map
        (fun p => Path.printLine
          (indentateOne (Paths.get_biggest_str_len s.paths).1
            (Paths.get_biggest_str_len s.paths).2 p)) :=
  print_normal_form s

/-- Claim C4: the hidden-entry filter never affects column widths: with
`all` false the emitted lines are exactly the lines emitted with `all`
true, minus the rows whose line starts with `'.'` (padding is computed
over the unfiltered set either way); in particular, for the set
`[".git", "README"]` with `all` false, exactly one line is emitted, for
`"README"`, and its columns are padded to the widths of both entries. -/
theorem print_hidden_filter_independent (ps : List Path) (long : Bool)
    (tr : Bool × String) :
    (Paths.print (Paths.mk ps long false tr) =
      (Paths.print (Paths.mk ps long true tr)).filter
        (fun l => !startsWithDot l)) ∧
    Paths.print (Paths.mk
        [Path.mk ".git" true "-" "T", Path.mk "README" false "100B" "T"]
        false false (false, "")) = ["README  100B  T"] := by
  constructor
  · rw [print_normal_form, print_normal_form, List.filter_map]
    dsimp only
    simp only [Bool.true_or, Bool.false_or, List.filter_true]
    refine congrArg _ (List.filter_congr ?_)
    intro p hp
    simp only [Function.comp]
    rw [startsWithDot_printLine_indentateOne]
  · decide

/-- Claim C8: an empty descriptor list renders to zero lines with no
error, for every combination of the flags, and the width computation
yields `(0, 0)`. -/
theorem print_empty_entries (long all : Bool) (tr : Bool × String) :
    Paths.print (Paths.mk [] long all tr) = [] ∧
    Paths.get_biggest_str_len [] = (0, 0) :=
  ⟨rfl, rfl⟩

/-- Claim C10: `setup_args` modifies only the flag fields: it stores the
given `all` and `long` booleans, sets `tree` to `(true, label)` when the
third argument is `some label` and leaves `tree` unchanged when it is
`none`, and never touches the `paths` collection. -/
theorem setup_args_frame (s : Paths) (all long : Bool) (tr : Option String) :
    (Paths.setup_args s (all, long, tr)).all = all ∧
    (Paths.setup_args s (all, long, tr)).long = long ∧
    (Paths.setup_args s (all, long, tr)).paths = s.paths ∧
    (Paths.setup_args s (all, long, tr)).tree =
      (match tr with | none => s.tree | some t => (true, t)) := by
  cases tr <;> exact ⟨rfl, rfl, rfl, rfl⟩

/-- Claim C9: the `Err` branch of `set_time` is unreachable: for every
`SystemTime` input the function either returns `Ok` with the formatted
string or panics; it never produces the `Err` variant of its
`Result<String, Error>` return type, so the callers unwrap of the result
never observes an `Err`. -/
theorem set_time_never_err (t : Int) :
    Path.set_time t ≠ SetTimeResult.fmtErr ∧
    ((∃ s, Path.set_time t = SetTimeResult.ok s) ∨
      (∃ m, Path.set_time t = SetTimeResult.panicked m)) := by
  rcases Decidable.em (0 ≤ t) with h1 | h1
  · rcases Decidable.em
        (fromTimestampMillisValid (castMillisToI64 t.toNat) = true) with h2 | h2
    · simp [Path.set_time, h1, h2]
    · simp [Path.set_time, h1, h2]
  · simp [Path.set_time, h1]

/-- Claim C6 (counterexample): on a pre-epoch timestamp the code panics
(terminating the process) instead of propagating an error to the caller:
`set_time` of one millisecond before the epoch is a panic outcome, not the
`Err` variant. -/
theorem set_time_preepoch_terminates :
    Path.set_time (-1000000) =
        SetTimeResult.panicked "Time must gone backwards!" ∧
    Path.set_time (-1000000) ≠ SetTimeResult.fmtErr := by
  decide

/-- Claim C6 (amended): timestamp conversion fails exactly when the
modification timestamp predates the epoch or cannot be represented as
calendar time, but the failure is a panic that terminates the process (with
distinct messages for the two conditions), not an error value propagated to
the caller. -/
theorem set_time_panics_iff (t : Int) :
    ((∃ m, Path.set_time t = SetTimeResult.panicked m) ↔
      (t < 0 ∨ fromTimestampMillisValid (castMillisToI64 t.toNat) = false)) ∧
    Path.set_time t ≠ SetTimeResult.fmtErr := by
  rcases Decidable.em (0 ≤ t) with h1 | h1
  · rcases Decidable.em
        (fromTimestampMillisValid (castMillisToI64 t.toNat) = true) with h2 | h2
    · simp [Path.set_time, h1, h2]
    · simp [Path.set_time, h1, h2]
  · simp [Path.set_time, h1]
    omega

theorem utcSecondsOfDay_lt (ms : Int) : utcSecondsOfDay ms < 86400 := by
  unfold utcSecondsOfDay
  have h1 : 0 ≤ ms % 86400000 := Int.emod_nonneg ms (by norm_num)
  have h2 : ms % 86400000 < 86400000 := Int.emod_lt_of_pos ms (by norm_num)
  omega

/-- Claim C5: for every valid (post-epoch, representable) modification
timestamp, `set_time` succeeds and renders the UTC calendar time as
`"<day> <abbreviated month> <hour24>:<minute>"` (with the hour below 24 and
the minute below 60); in particular a timestamp of 1675111074521
milliseconds since the epoch yields exactly `"30 Jan 20:37"`. -/
theorem set_time_renders_utc (t : Int) (h1 : 0 ≤ t)
    (h2 : fromTimestampMillisValid (castMillisToI64 t.toNat) = true) :
    (Path.set_time t =
        SetTimeResult.ok (formatNaive (castMillisToI64 t.toNat)) ∧
      formatNaive (castMillisToI64 t.toNat) =
        fmtDaySpacePadded (utcDay (castMillisToI64 t.toNat)) ++ " " ++
          monthAbbrev (utcMonth (castMillisToI64 t.toNat)) ++ " " ++
          fmtTwoDigit (utcSecondsOfDay (castMillisToI64 t.toNat) / 3600) ++ ":" ++
          fmtTwoDigit (utcSecondsOfDay (castMillisToI64 t.toNat) % 3600 / 60) ∧
      utcSecondsOfDay (castMillisToI64 t.toNat) / 3600 < 24 ∧
      utcSecondsOfDay (castMillisToI64 t.toNat) % 3600 / 60 < 60) ∧
    Path.set_time (1675111074521 * 1000000) =
      SetTimeResult.ok "30 Jan 20:37" := by
  refine ⟨⟨?_, rfl, ?_, ?_⟩, by decide⟩
  · simp [Path.set_time, h1, h2]
  · have hb := utcSecondsOfDay_lt (castMillisToI64 t.toNat)
    omega
  · have hb := utcSecondsOfDay_lt (castMillisToI64 t.toNat)
    omega

theorem set_time_renders_utc_witness :
    Path.set_time (1675111074521 * 1000000) =
      SetTimeResult.ok (formatNaive (castMillisToI64
        ((1675111074521 * 1000000 : Int)).toNat)) :=
  (set_time_renders_utc (1675111074521 * 1000000)
    (by norm_num) (by decide)).1.1

end Lsr
